import Mathlib

/-!
Verification development for the `bevy_libp2p_test` repository.

The file embeds, as Lean definitions, the two parts of the code the
properties below are about:

* `src/crypto.rs` — the `KeyRing` / `DataEncryptor` gossipsub
  `DataTransform` (AES-256-GCM encode/decode with key rotation);
* `src/network.rs` — the background engine loop of `setup_network`,
  its command handling and its event-to-`NetworkEvent` translation.

The AES-256-GCM primitive itself lives in the external `aes_gcm` crate;
it is modelled here as an idealised, executable AEAD: a ciphertext is the
plaintext masked by a key/nonce stream followed by a tag that binds key,
nonce, associated data and plaintext injectively (via `Nat.pair`), so
that decryption succeeds exactly for the encrypting key, nonce and AAD —
the contract the code relies on. Rust panics (integer underflow, slice
out of range, `unwrap`/`expect`, `todo!`) are modelled explicitly as a
distinguished `panicked` outcome, and the OS randomness (`OsRng`) that
draws keys and nonces is modelled as explicit parameters.
-/

namespace BevyLibp2p

/-! ## Definitions: the crypto transform (src/crypto.rs) -/

/-- Model bytes as natural numbers (the tag "byte" of the idealised AEAD
carries an unbounded value standing for the 16-byte GCM tag). -/
abbrev Byte := Nat

/-- Model an AES-256 key by a natural number. -/
abbrev Key := Nat

/-- `<Aes256Gcm as AeadCore>::NonceSize::to_usize()` — 96-bit nonce. -/
def nonceSize : Nat := 12

/-- `const AAD: [u8; 4] = [0xde, 0xad, 0xbe, 0xef];` (crypto.rs line 40). -/
def AAD : List Byte := [0xde, 0xad, 0xbe, 0xef]

/-- Injective encoding of a byte list into a natural number. -/
def encodeList : List Nat → Nat
  | [] => 0
  | a :: l => Nat.pair a (encodeList l) + 1

/-- Idealised key stream of AES-CTR inside GCM for a given key and nonce. -/
def keystream (k : Key) (nonce : List Byte) : Nat :=
  Nat.pair k (encodeList nonce)

/-- Idealised GCM authentication tag: binds key, nonce, AAD and message. -/
def gcmTag (k : Key) (nonce aad msg : List Byte) : Nat :=
  Nat.pair k (Nat.pair (encodeList nonce) (Nat.pair (encodeList aad) (encodeList msg)))

/-- Modelled from the spec: `Aes256Gcm::encrypt` of the external `aes_gcm`
crate — AEAD encryption returning ciphertext-and-tag bytes. -/
def gcmEncrypt (k : Key) (nonce aad msg : List Byte) : List Byte :=
  msg.map (fun b => b + keystream k nonce) ++ [gcmTag k nonce aad msg]

/-- Modelled from the spec: `Aes256Gcm::decrypt` of the external `aes_gcm`
crate — authenticated decryption, `none` on authentication failure. -/
def gcmDecrypt (k : Key) (nonce aad ct : List Byte) : Option (List Byte) :=
  match ct.getLast? with
  | none => none
  | some tag =>
    let msg := ct.dropLast.map (fun b => b - keystream k nonce)
    if tag = gcmTag k nonce aad msg then some msg else none

/-- `KeyRing` (crypto.rs line 10): the `Vec<Aes256Gcm>` behind the
`Arc<RwLock<…>>`, read as a value at each call. -/
abbrev KeyRing := List Key

/-- `DataEncryptor::new` (crypto.rs lines 17-23): a ring seeded with
exactly one freshly generated key; the key drawn from `OsRng` is an
explicit parameter. -/
def DataEncryptor.new (k : Key) : KeyRing := [k]

/-- `KeyRing::add_key` (crypto.rs lines 31-38): pushes the new key at the
end of the vector. -/
def KeyRing.add_key (ring : KeyRing) (k : Key) : KeyRing := ring ++ [k]

/-- Outcomes of a transform call: `panicked` models a Rust panic
(usize underflow, out-of-range slice, `unwrap` on an empty ring);
`noCorrespondingKey` models the `std::io::Error` built at crypto.rs
lines 65-68. -/
inductive TransformError
  | panicked
  | noCorrespondingKey
  deriving DecidableEq, Repr

/-- `libp2p::gossipsub::RawMessage` — the fields `inbound_transform`
reads (peer ids and topic hashes modelled as numbers). -/
structure RawMessage where
  data : List Byte
  source : Option Nat
  sequence_number : Option Nat
  topic : Nat
  deriving DecidableEq, Repr

/-- `libp2p::gossipsub::Message` — the transformed message. -/
structure Message where
  data : List Byte
  source : Option Nat
  sequence_number : Option Nat
  topic : Nat
  deriving DecidableEq, Repr

/-- `.iter().rev().find_map(|key| key.decrypt(nonce.into(), payload).ok())`
(crypto.rs lines 51-64): the keys are visited in the given order and the
first successful decryption is returned. -/
def findDecrypt (nonce ct : List Byte) : List Key → Option (List Byte)
  | [] => none
  | k :: rest =>
    match gcmDecrypt k nonce AAD ct with
    | some msg => some msg
    | none => findDecrypt nonce ct rest

/-- `DataEncryptor::inbound_transform` (crypto.rs lines 43-75).
`raw_message.data.len() - NonceSize` is a `usize` subtraction: when the
payload is shorter than the nonce it underflows and the code panics
(debug: subtract-with-overflow; release: the wrapped value makes the
slice `data[data_size..]` go out of range), modelled by `panicked`. -/
def inbound_transform (keys : KeyRing) (raw : RawMessage) :
    Except TransformError Message :=
  if raw.data.length < nonceSize then
    .error .panicked
  else
    let data_size := raw.data.length - nonceSize
    let nonce := raw.data.drop data_size
    let ct := raw.data.take data_size
    match findDecrypt nonce ct keys.reverse with
    | some d =>
      .ok { data := d, source := raw.source,
            sequence_number := raw.sequence_number, topic := raw.topic }
    | none => .error .noCorrespondingKey

/-- `DataEncryptor::outbound_transform` (crypto.rs lines 77-103): encrypt
under `.last().unwrap()` with the constant `AAD` and a fresh nonce (the
`OsRng` draw is the explicit `nonce` parameter), then append the nonce.
`.last().unwrap()` on an empty ring would panic; the library encrypt
error branch (plaintext too long for GCM) is unreachable in the model. -/
def outbound_transform (keys : KeyRing) (nonce : List Byte) (_topic : Nat)
    (data : List Byte) : Except TransformError (List Byte) :=
  match keys.getLast? with
  | some k => .ok (gcmEncrypt k nonce AAD data ++ nonce)
  | none => .error .panicked

/-- The trailing nonce-sized suffix `inbound_transform` splits off. -/
def nonceOf (raw : RawMessage) : List Byte :=
  raw.data.drop (raw.data.length - nonceSize)

/-- The ciphertext part `inbound_transform` splits off. -/
def ciphertextOf (raw : RawMessage) : List Byte :=
  raw.data.take (raw.data.length - nonceSize)

/-! ## Definitions: the engine loop (src/network.rs) -/

/-- `const IDENTIFY_PROTOCOL: &str = "/bevy-p2p-demo/v1";` (network.rs
line 27). -/
def IDENTIFY_PROTOCOL : String := "/bevy-p2p-demo/v1"

/-- The behaviour events the loop distinguishes (network.rs lines
256-286): `identify::Event::Received` with the remote peer's protocol
list, the Kademlia start-providing confirmation, and everything else
(relay, dcutr, gossip, ping, other identify/kad events), which falls
into the catch-all arm and produces nothing. -/
inductive BehaviourEvent
  | identifyReceived (peer : Nat) (protocols : List String)
  | kadStartProvidingOk (key : String)
  | otherBehaviour
  deriving DecidableEq, Repr

/-- The `SwarmEvent` variants matched by the loop (network.rs lines
175-203). -/
inductive SwarmEvent
  | connectionEstablished (peer : Nat)
  | connectionClosed (peer : Nat)
  | incomingConnection
  | incomingConnectionError
  | outgoingConnectionError
  | newListenAddr (addr : String)
  | expiredListenAddr
  | listenerClosed
  | listenerError
  | dialing (peer : Option Nat)
  | behaviour (ev : BehaviourEvent)
  deriving DecidableEq, Repr

/-- `GameAdminEvent` (network.rs lines 47-51). -/
inductive GameAdminEvent
  | host (room_code : String)
  | quit
  deriving DecidableEq, Repr

/-- `GameEvent<FromGame>` (network.rs lines 40-44). -/
inductive GameEvent (F : Type)
  | admin (ev : GameAdminEvent)
  | game (payload : F)
  deriving DecidableEq

/-- `NetworkAdminEvent` (network.rs lines 59-64). -/
inductive NetworkAdminEvent
  | connected (peer : Nat)
  | disconnected (peer : Nat)
  | newNetworkAddress (addr : String)
  deriving DecidableEq, Repr

/-- `NetworkEvent<ToGame>` (network.rs lines 53-57). -/
inductive NetworkEvent (T : Type)
  | admin (ev : NetworkAdminEvent)
  | game (payload : T)
  deriving DecidableEq

/-- `handle_behaviour_event` (network.rs lines 251-287): sends
`Connected(peer_id)` exactly when an identify `Received` event reports
that the peer lists `IDENTIFY_PROTOCOL`; every other event only logs. -/
def handle_behaviour_event (T : Type) : BehaviourEvent → List (NetworkEvent T)
  | .identifyReceived p protos =>
    if IDENTIFY_PROTOCOL ∈ protos then [.admin (.connected p)] else []
  | .kadStartProvidingOk _ => []
  | .otherBehaviour => []

/-- The `Either::Left` arm of the loop (network.rs lines 175-203): the
`NetworkEvent`s sent to the application for one swarm event. The
`Connected` send in the `ConnectionEstablished` arm is commented out in
the source, so that arm produces nothing; `ConnectionClosed` always
reports `Disconnected`; `NewListenAddr` is only logged. -/
def handleSwarmEvent (T : Type) : SwarmEvent → List (NetworkEvent T)
  | .connectionEstablished _ => []
  | .connectionClosed p => [.admin (.disconnected p)]
  | .behaviour ev => handle_behaviour_event T ev
  | _ => []

/-- Environment responses to the five fallible swarm calls made in the
`Host` arm (network.rs lines 206-236): three `listen_on`, one `dial`,
one `kad.start_providing`, in that order, each unwrapped with
`.expect(…)`. -/
structure HostOutcome where
  listenRelayOk : Bool
  listenTcpOk : Bool
  listenWsOk : Bool
  dialOk : Bool
  provideOk : Bool
  deriving DecidableEq, Repr

/-- All five `.expect(…)`-guarded calls succeeded. -/
def HostOutcome.allOk (e : HostOutcome) : Bool :=
  e.listenRelayOk && e.listenTcpOk && e.listenWsOk && e.dialOk && e.provideOk

/-- Engine loop states (spec §4.3): the loop of network.rs lines 168-241
is `running`; `break` on `Quit` is `stopped`; a panic in a handler
(`expect`/`todo!`) kills the thread, `panicked`. -/
inductive EngineStatus
  | running
  | stopped
  | panicked
  deriving DecidableEq, Repr

/-- The `Either::Right` arm (network.rs lines 204-239): `Quit` breaks the
loop; `Host` performs the five `.expect(…)`-guarded swarm calls and
panics if any fails; `Game(_)` hits `todo!()` and panics. -/
def handleCommand (F : Type) (ev : GameEvent F) (env : HostOutcome) : EngineStatus :=
  match ev with
  | .admin .quit => .stopped
  | .admin (.host _) => if env.allOk then .running else .panicked
  | .game _ => .panicked

/-- One input to the `futures::future::select` of the loop: a swarm
event, or a command read from the `from_game` channel together with the
environment's responses to the swarm calls handling it may make. -/
inductive EngineInput (F : Type)
  | fromSwarm (ev : SwarmEvent)
  | fromGame (ev : GameEvent F) (env : HostOutcome)
  deriving DecidableEq

/-- One iteration of the engine loop: when the loop has exited (stopped
or panicked) nothing further is processed and nothing is emitted. -/
def engineStep (F T : Type) (st : EngineStatus) (inp : EngineInput F) :
    EngineStatus × List (NetworkEvent T) :=
  match st, inp with
  | .running, .fromSwarm ev => (.running, handleSwarmEvent T ev)
  | .running, .fromGame ev env => (handleCommand F ev env, [])
  | .stopped, _ => (.stopped, [])
  | .panicked, _ => (.panicked, [])

/-- The engine loop over a finite trace of inputs, collecting the
`NetworkEvent`s pushed to the `to_game` channel in order. -/
def engineRun (F T : Type) (st : EngineStatus) :
    List (EngineInput F) → EngineStatus × List (NetworkEvent T)
  | [] => (st, [])
  | inp :: rest =>
    ((engineRun F T (engineStep F T st inp).1 rest).1,
      (engineStep F T st inp).2 ++ (engineRun F T (engineStep F T st inp).1 rest).2)

/-- `NetworkManager::send_to_network` (network.rs lines 72-79): a send on
the unbounded `to_network` channel succeeds while the loop (the sole
owner of the receiving end) is alive, and returns `SendError(event)`
once the loop has terminated — whether by `break` or by panic. -/
def sendToNetwork (F : Type) (st : EngineStatus) (ev : GameEvent F) :
    Except (GameEvent F) Unit :=
  match st with
  | .running => .ok ()
  | .stopped => .error ev
  | .panicked => .error ev

/-- Whether an input is an identify `Received` event for peer `p` whose
protocol list contains the expected application protocol. -/
def confirmsIdentifyB (F : Type) (inp : EngineInput F) (p : Nat) : Bool :=
  match inp with
  | .fromSwarm (.behaviour (.identifyReceived q protos)) =>
    p == q && decide (IDENTIFY_PROTOCOL ∈ protos)
  | _ => false

/-! ## Definitions: concrete sample values used by witnesses -/

/-- A wire message encrypted under key 7 (not in the sample ring `[5]`). -/
def c3wire : RawMessage :=
  { data := gcmEncrypt 7 (List.replicate 12 0) AAD [9] ++ List.replicate 12 0,
    source := none, sequence_number := none, topic := 0 }

/-- A well-formed wire message encrypted under key 0. -/
def c10raw : RawMessage :=
  { data := gcmEncrypt 0 (List.replicate 12 0) AAD [9] ++ List.replicate 12 0,
    source := some 5, sequence_number := some 6, topic := 7 }

/-- The decoded form of `c10raw`. -/
def c10msg : Message :=
  { data := [9], source := some 5, sequence_number := some 6, topic := 7 }

/-- A trace with a completed transport handshake for peer 3 but no
successful identify negotiation. -/
def c7trace : List (EngineInput Unit) :=
  [.fromSwarm (.connectionEstablished 3),
    .fromSwarm (.behaviour (.identifyReceived 3 ["/other/protocol"])),
    .fromSwarm (.connectionClosed 3)]

/-- A benign trace processed before a `Quit` command. -/
def c8trace1 : List (EngineInput Unit) :=
  [.fromSwarm (.connectionClosed 1)]

/-- A trace arriving after the `Quit` command. -/
def c8trace2 : List (EngineInput Unit) :=
  [.fromSwarm (.connectionClosed 2)]

/-- A `HostOutcome` in which every swarm call succeeds. -/
def allCallsOk : HostOutcome :=
  { listenRelayOk := true, listenTcpOk := true, listenWsOk := true,
    dialOk := true, provideOk := true }

/-- A `HostOutcome` in which the bootstrap dial fails. -/
def dialFails : HostOutcome :=
  { listenRelayOk := true, listenTcpOk := true, listenWsOk := true,
    dialOk := false, provideOk := true }

/-! ## Helper lemmas -/

theorem encodeList_inj : ∀ {x y : List Nat}, encodeList x = encodeList y → x = y
  | [], [], _ => rfl
  | [], _ :: _, h => by simp [encodeList] at h
  | _ :: _, [], h => by simp [encodeList] at h
  | a :: x, b :: y, h => by
    simp only [encodeList, Nat.add_right_cancel_iff] at h
    obtain ⟨h1, h2⟩ := Nat.pair_eq_pair.mp h
    rw [h1, encodeList_inj h2]

theorem gcmEncrypt_length (k : Key) (nonce aad msg : List Byte) :
    (gcmEncrypt k nonce aad msg).length = msg.length + 1 := by
  simp [gcmEncrypt]

theorem gcmDecrypt_gcmEncrypt (k : Key) (nonce aad msg : List Byte) :
    gcmDecrypt k nonce aad (gcmEncrypt k nonce aad msg) = some msg := by
  have hmask : (msg.map (fun b => b + keystream k nonce)).map
      (fun b => b - keystream k nonce) = msg := by
    induction msg with
    | nil => rfl
    | cons a t ih => simp only [List.map_cons, Nat.add_sub_cancel, ih]
  simp [gcmDecrypt, gcmEncrypt, List.getLast?_concat, List.dropLast_concat, hmask]

theorem gcmDecrypt_wrong_key (k1 k2 : Key) (nonce aad msg : List Byte)
    (h : k1 ≠ k2) :
    gcmDecrypt k1 nonce aad (gcmEncrypt k2 nonce aad msg) = none := by
  simp only [gcmDecrypt, gcmEncrypt, List.getLast?_concat, List.dropLast_concat]
  rw [if_neg]
  intro hEq
  exact h ((Nat.pair_eq_pair.mp hEq.symm).1)

theorem inbound_eq (keys : KeyRing) (raw : RawMessage)
    (h : nonceSize ≤ raw.data.length) :
    inbound_transform keys raw =
      match findDecrypt (nonceOf raw) (ciphertextOf raw) keys.reverse with
      | some d =>
        .ok { data := d, source := raw.source,
              sequence_number := raw.sequence_number, topic := raw.topic }
      | none => .error .noCorrespondingKey := by
  rw [inbound_transform, if_neg (Nat.not_lt.mpr h)]
  rfl

theorem nonceOf_wire (ct n : List Byte) (hn : n.length = nonceSize)
    (s q : Option Nat) (t : Nat) :
    nonceOf { data := ct ++ n, source := s, sequence_number := q, topic := t } = n := by
  simp only [nonceOf, List.length_append, hn, Nat.add_sub_cancel]
  exact List.drop_left ct n

theorem ciphertextOf_wire (ct n : List Byte) (hn : n.length = nonceSize)
    (s q : Option Nat) (t : Nat) :
    ciphertextOf { data := ct ++ n, source := s, sequence_number := q, topic := t } = ct := by
  simp only [ciphertextOf, List.length_append, hn, Nat.add_sub_cancel]
  exact List.take_left ct n

theorem findDecrypt_eq_none (nonce ct : List Byte) (ks : List Key)
    (h : ∀ k ∈ ks, gcmDecrypt k nonce AAD ct = none) :
    findDecrypt nonce ct ks = none := by
  induction ks with
  | nil => rfl
  | cons k rest ih =>
    have hk := h k (List.mem_cons_self k rest)
    simp only [findDecrypt, hk]
    exact ih (fun k2 hk2 => h k2 (List.mem_cons_of_mem k hk2))

theorem findDecrypt_append_none (nonce ct : List Byte) (ks1 ks2 : List Key)
    (h : ∀ k ∈ ks1, gcmDecrypt k nonce AAD ct = none) :
    findDecrypt nonce ct (ks1 ++ ks2) = findDecrypt nonce ct ks2 := by
  induction ks1 with
  | nil => rfl
  | cons k rest ih =>
    have hk := h k (List.mem_cons_self k rest)
    simp only [List.cons_append, findDecrypt, hk]
    exact ih (fun k2 hk2 => h k2 (List.mem_cons_of_mem k hk2))

theorem inbound_wire (keys : KeyRing) (ct n : List Byte) (hn : n.length = nonceSize)
    (s q : Option Nat) (t : Nat) :
    inbound_transform keys { data := ct ++ n, source := s, sequence_number := q, topic := t } =
      match findDecrypt n ct keys.reverse with
      | some d => .ok { data := d, source := s, sequence_number := q, topic := t }
      | none => .error .noCorrespondingKey := by
  have h : nonceSize ≤ (ct ++ n).length := by
    rw [List.length_append, hn]
    exact Nat.le_add_left _ _
  rw [inbound_eq keys _ h, nonceOf_wire ct n hn s q t, ciphertextOf_wire ct n hn s q t]

theorem engineRun_stopped (F T : Type) (tr : List (EngineInput F)) :
    engineRun F T EngineStatus.stopped tr = (EngineStatus.stopped, ([] : List (NetworkEvent T))) := by
  induction tr with
  | nil => rfl
  | cons inp rest ih => simp [engineRun, engineStep, ih]

theorem engineRun_panicked (F T : Type) (tr : List (EngineInput F)) :
    engineRun F T EngineStatus.panicked tr = (EngineStatus.panicked, ([] : List (NetworkEvent T))) := by
  induction tr with
  | nil => rfl
  | cons inp rest ih => simp [engineRun, engineStep, ih]

theorem engineRun_append (F T : Type) (st : EngineStatus) (a b : List (EngineInput F)) :
    engineRun F T st (a ++ b) =
      ((engineRun F T (engineRun F T st a).1 b).1,
        ((engineRun F T st a).2 : List (NetworkEvent T)) ++
          (engineRun F T (engineRun F T st a).1 b).2) := by
  induction a generalizing st with
  | nil => simp [engineRun]
  | cons inp rest ih => simp [engineRun, ih, List.append_assoc]

theorem connected_mem_handleSwarmEvent (T : Type) (ev : SwarmEvent) (p : Nat)
    (h : NetworkEvent.admin (NetworkAdminEvent.connected p) ∈ handleSwarmEvent T ev) :
    ∃ protos, ev = .behaviour (.identifyReceived p protos) ∧
      IDENTIFY_PROTOCOL ∈ protos := by
  cases ev with
  | behaviour bev =>
    cases bev with
    | identifyReceived q protos =>
      simp only [handleSwarmEvent, handle_behaviour_event] at h
      by_cases hc : IDENTIFY_PROTOCOL ∈ protos
      · rw [if_pos hc] at h
        simp only [List.mem_singleton, NetworkEvent.admin.injEq,
          NetworkAdminEvent.connected.injEq] at h
        exact ⟨protos, by rw [h], hc⟩
      · rw [if_neg hc] at h
        exact absurd h (List.not_mem_nil _)
    | kadStartProvidingOk key => simp [handleSwarmEvent, handle_behaviour_event] at h
    | otherBehaviour => simp [handleSwarmEvent, handle_behaviour_event] at h
  | connectionClosed q => simp [handleSwarmEvent] at h
  | connectionEstablished q => simp [handleSwarmEvent] at h
  | incomingConnection => simp [handleSwarmEvent] at h
  | incomingConnectionError => simp [handleSwarmEvent] at h
  | outgoingConnectionError => simp [handleSwarmEvent] at h
  | newListenAddr a => simp [handleSwarmEvent] at h
  | expiredListenAddr => simp [handleSwarmEvent] at h
  | listenerClosed => simp [handleSwarmEvent] at h
  | listenerError => simp [handleSwarmEvent] at h
  | dialing q => simp [handleSwarmEvent] at h

theorem connected_not_mem_run (F T : Type) (st : EngineStatus)
    (tr : List (EngineInput F)) (p : Nat)
    (h : ∀ inp ∈ tr, confirmsIdentifyB F inp p = false) :
    NetworkEvent.admin (NetworkAdminEvent.connected p) ∉ (engineRun F T st tr).2 := by
  induction tr generalizing st with
  | nil => simp [engineRun]
  | cons inp rest ih =>
    simp only [engineRun, List.mem_append, not_or]
    constructor
    · intro hstep
      cases st with
      | running =>
        cases inp with
        | fromSwarm ev =>
          simp only [engineStep] at hstep
          obtain ⟨protos, rfl, hc⟩ := connected_mem_handleSwarmEvent T ev p hstep
          have hfalse := h _ (List.mem_cons_self _ _)
          simp [confirmsIdentifyB, hc] at hfalse
        | fromGame ev env => simp [engineStep] at hstep
      | stopped => simp [engineStep] at hstep
      | panicked => simp [engineStep] at hstep
    · exact ih _ (fun i hi => h i (List.mem_cons_of_mem _ hi))

/-! ## Claim theorems -/

/-- C1: on a freshly constructed KeyRing (one generated key), decoding the
wire bytes produced by encoding a plaintext `p` returns exactly `p`. -/
theorem round_trip_fresh_ring (k : Key) (p n : List Byte) (t : Nat) (s q : Option Nat)
    (hn : n.length = nonceSize) :
    ∃ w, outbound_transform (DataEncryptor.new k) n t p = .ok w ∧
      inbound_transform (DataEncryptor.new k)
          { data := w, source := s, sequence_number := q, topic := t } =
        .ok { data := p, source := s, sequence_number := q, topic := t } := by
  refine ⟨gcmEncrypt k n AAD p ++ n, rfl, ?_⟩
  rw [inbound_wire _ _ _ hn]
  simp [DataEncryptor.new, findDecrypt, gcmDecrypt_gcmEncrypt]

theorem round_trip_fresh_ring_witness :
    ∃ w, outbound_transform (DataEncryptor.new 0) (List.replicate 12 0) 0 [1, 2, 3] = .ok w ∧
      inbound_transform (DataEncryptor.new 0)
          { data := w, source := some 5, sequence_number := some 6, topic := 0 } =
        .ok { data := [1, 2, 3], source := some 5, sequence_number := some 6, topic := 0 } :=
  round_trip_fresh_ring 0 [1, 2, 3] (List.replicate 12 0) 0 (some 5) (some 6) (by decide)

/-- C2: after `add_key k2` on a ring holding `k1`, a message encoded earlier
under `k1` still decodes to its plaintext; new encodes use `k2` exclusively,
their wires fail to decode against a ring holding `k1` alone but succeed
against the full ring. -/
theorem key_rotation_backward_compat (k1 k2 : Key) (p n n2 : List Byte) (t : Nat)
    (s q : Option Nat) (hn : n.length = nonceSize) (hn2 : n2.length = nonceSize)
    (hk : k1 ≠ k2) :
    (∀ w, outbound_transform (DataEncryptor.new k1) n t p = .ok w →
        inbound_transform ((DataEncryptor.new k1).add_key k2)
            { data := w, source := s, sequence_number := q, topic := t } =
          .ok { data := p, source := s, sequence_number := q, topic := t }) ∧
    outbound_transform ((DataEncryptor.new k1).add_key k2) n2 t p =
      .ok (gcmEncrypt k2 n2 AAD p ++ n2) ∧
    inbound_transform (DataEncryptor.new k1)
        { data := gcmEncrypt k2 n2 AAD p ++ n2, source := s, sequence_number := q,
          topic := t } = .error .noCorrespondingKey ∧
    inbound_transform ((DataEncryptor.new k1).add_key k2)
        { data := gcmEncrypt k2 n2 AAD p ++ n2, source := s, sequence_number := q,
          topic := t } = .ok { data := p, source := s, sequence_number := q, topic := t } := by
  refine ⟨?_, rfl, ?_, ?_⟩
  · intro w hw
    have hw2 : gcmEncrypt k1 n AAD p ++ n = w := by
      have hr : outbound_transform (DataEncryptor.new k1) n t p =
          .ok (gcmEncrypt k1 n AAD p ++ n) := rfl
      rw [hr] at hw
      injection hw
    subst hw2
    rw [inbound_wire _ _ _ hn]
    simp [DataEncryptor.new, KeyRing.add_key, findDecrypt,
      gcmDecrypt_wrong_key k2 k1 n AAD p (Ne.symm hk), gcmDecrypt_gcmEncrypt]
  · rw [inbound_wire _ _ _ hn2]
    simp [DataEncryptor.new, findDecrypt, gcmDecrypt_wrong_key k1 k2 n2 AAD p hk]
  · rw [inbound_wire _ _ _ hn2]
    simp [DataEncryptor.new, KeyRing.add_key, findDecrypt, gcmDecrypt_gcmEncrypt]

theorem key_rotation_backward_compat_witness :
    (∀ w, outbound_transform (DataEncryptor.new 0) (List.replicate 12 0) 0 [1, 2] = .ok w →
        inbound_transform ((DataEncryptor.new 0).add_key 1)
            { data := w, source := none, sequence_number := none, topic := 0 } =
          .ok { data := [1, 2], source := none, sequence_number := none, topic := 0 }) ∧
    outbound_transform ((DataEncryptor.new 0).add_key 1) (List.replicate 12 1) 0 [1, 2] =
      .ok (gcmEncrypt 1 (List.replicate 12 1) AAD [1, 2] ++ List.replicate 12 1) ∧
    inbound_transform (DataEncryptor.new 0)
        { data := gcmEncrypt 1 (List.replicate 12 1) AAD [1, 2] ++ List.replicate 12 1,
          source := none, sequence_number := none, topic := 0 } =
      .error .noCorrespondingKey ∧
    inbound_transform ((DataEncryptor.new 0).add_key 1)
        { data := gcmEncrypt 1 (List.replicate 12 1) AAD [1, 2] ++ List.replicate 12 1,
          source := none, sequence_number := none, topic := 0 } =
      .ok { data := [1, 2], source := none, sequence_number := none, topic := 0 } :=
  key_rotation_backward_compat 0 1 [1, 2] (List.replicate 12 0) (List.replicate 12 1) 0
    none none (by decide) (by decide) (by decide)

/-- C3: for payloads at least nonce-sized, decode splits the trailing
nonce-sized suffix and tries the ring newest to oldest, returning the first
success; if every key fails (in particular for a key never added to the
ring) it returns the no-matching-key error rather than crashing. -/
theorem inbound_decode_spec (keys : KeyRing) (raw : RawMessage)
    (h : nonceSize ≤ raw.data.length) :
    (∀ older newer k m, keys = older ++ k :: newer →
        gcmDecrypt k (nonceOf raw) AAD (ciphertextOf raw) = some m →
        (∀ k2 ∈ newer, gcmDecrypt k2 (nonceOf raw) AAD (ciphertextOf raw) = none) →
        inbound_transform keys raw =
          .ok { data := m, source := raw.source,
                sequence_number := raw.sequence_number, topic := raw.topic }) ∧
    ((∀ k ∈ keys, gcmDecrypt k (nonceOf raw) AAD (ciphertextOf raw) = none) →
        inbound_transform keys raw = .error .noCorrespondingKey) ∧
    (∀ k p n, n.length = nonceSize →
        raw.data = gcmEncrypt k n AAD p ++ n → k ∉ keys →
        inbound_transform keys raw = .error .noCorrespondingKey) := by
  refine ⟨?_, ?_, ?_⟩
  · intro older newer k m hks hk hnew
    rw [inbound_eq keys raw h, hks]
    have hrev : (older ++ k :: newer).reverse = newer.reverse ++ (k :: older.reverse) := by
      simp
    rw [hrev, findDecrypt_append_none (nonceOf raw) (ciphertextOf raw) newer.reverse
      (k :: older.reverse) (fun k2 hk2 => hnew k2 (List.mem_reverse.mp hk2))]
    simp [findDecrypt, hk]
  · intro hall
    rw [inbound_eq keys raw h,
      findDecrypt_eq_none _ _ _ (fun k hk => hall k (List.mem_reverse.mp hk))]
  · intro k p n hn hdata hk
    have hnonce : nonceOf raw = n := by
      show raw.data.drop (raw.data.length - nonceSize) = n
      rw [hdata, List.length_append, hn, Nat.add_sub_cancel]
      exact List.drop_left _ _
    have hct : ciphertextOf raw = gcmEncrypt k n AAD p := by
      show raw.data.take (raw.data.length - nonceSize) = gcmEncrypt k n AAD p
      rw [hdata, List.length_append, hn, Nat.add_sub_cancel]
      exact List.take_left _ _
    rw [inbound_eq keys raw h, findDecrypt_eq_none _ _ _ (fun k2 hk2 => ?_)]
    rw [hnonce, hct]
    exact gcmDecrypt_wrong_key k2 k n AAD p
      (fun he => hk (he ▸ List.mem_reverse.mp hk2))

theorem inbound_decode_spec_witness :
    (∀ older newer k m, [5] = older ++ k :: newer →
        gcmDecrypt k (nonceOf c3wire) AAD (ciphertextOf c3wire) = some m →
        (∀ k2 ∈ newer, gcmDecrypt k2 (nonceOf c3wire) AAD (ciphertextOf c3wire) = none) →
        inbound_transform [5] c3wire =
          .ok { data := m, source := none, sequence_number := none, topic := 0 }) ∧
    ((∀ k ∈ [5], gcmDecrypt k (nonceOf c3wire) AAD (ciphertextOf c3wire) = none) →
        inbound_transform [5] c3wire = .error .noCorrespondingKey) ∧
    (∀ k p n, n.length = nonceSize →
        c3wire.data = gcmEncrypt k n AAD p ++ n → k ∉ [5] →
        inbound_transform [5] c3wire = .error .noCorrespondingKey) :=
  inbound_decode_spec [5] c3wire (by decide)

/-- C4: encode encrypts under the latest (last-appended) key with the fixed
4-byte AAD constant and returns ciphertext concatenated with the fresh
nonce, the nonce occupying the final fixed-size slice of the wire. -/
theorem outbound_wire_format (ks : KeyRing) (k : Key) (n p : List Byte) (t : Nat)
    (hn : n.length = nonceSize) :
    AAD = [0xde, 0xad, 0xbe, 0xef] ∧
    outbound_transform (ks ++ [k]) n t p = .ok (gcmEncrypt k n AAD p ++ n) ∧
    ∀ w, outbound_transform (ks ++ [k]) n t p = .ok w →
      w.length = p.length + 1 + nonceSize ∧
      w.drop (w.length - nonceSize) = n ∧
      w.take (w.length - nonceSize) = gcmEncrypt k n AAD p := by
  have hout : outbound_transform (ks ++ [k]) n t p = .ok (gcmEncrypt k n AAD p ++ n) := by
    simp only [outbound_transform, List.getLast?_concat]
  refine ⟨rfl, hout, ?_⟩
  intro w hw
  rw [hout] at hw
  injection hw with hw
  subst hw
  have hsub : (gcmEncrypt k n AAD p ++ n).length - nonceSize =
      (gcmEncrypt k n AAD p).length := by
    rw [List.length_append, hn, Nat.add_sub_cancel]
  refine ⟨?_, ?_, ?_⟩
  · rw [List.length_append, hn, gcmEncrypt_length]
  · rw [hsub]
    exact List.drop_left _ _
  · rw [hsub]
    exact List.take_left _ _

theorem outbound_wire_format_witness :
    AAD = [0xde, 0xad, 0xbe, 0xef] ∧
    outbound_transform ([3] ++ [4]) (List.replicate 12 2) 0 [1] =
      .ok (gcmEncrypt 4 (List.replicate 12 2) AAD [1] ++ List.replicate 12 2) ∧
    ∀ w, outbound_transform ([3] ++ [4]) (List.replicate 12 2) 0 [1] = .ok w →
      w.length = List.length [1] + 1 + nonceSize ∧
      w.drop (w.length - nonceSize) = List.replicate 12 2 ∧
      w.take (w.length - nonceSize) = gcmEncrypt 4 (List.replicate 12 2) AAD [1] :=
  outbound_wire_format [3] 4 (List.replicate 12 2) [1] 0 (by decide)

/-- C5: the code at the failing input — an inbound payload shorter than the
nonce size makes `data.len() - NonceSize` underflow, so the transform
panics instead of returning the malformed-input error the spec requires. -/
theorem inbound_short_payload_panics :
    inbound_transform [0]
        { data := [], source := none, sequence_number := none, topic := 0 } =
      .error .panicked := rfl

/-- C6: two encodes of the same plaintext drawing distinct fresh nonces
never produce identical wire bytes. -/
theorem encode_distinct_nonces_distinct_wires (keys : KeyRing) (p : List Byte) (t : Nat)
    (n1 n2 w1 w2 : List Byte)
    (_h1 : n1.length = nonceSize) (_h2 : n2.length = nonceSize) (hne : n1 ≠ n2)
    (e1 : outbound_transform keys n1 t p = .ok w1)
    (e2 : outbound_transform keys n2 t p = .ok w2) :
    w1 ≠ w2 := by
  cases hlast : keys.getLast? with
  | none =>
    simp only [outbound_transform, hlast] at e1
    exact Except.noConfusion e1
  | some k =>
    simp only [outbound_transform, hlast] at e1 e2
    injection e1 with e1
    injection e2 with e2
    subst e1
    subst e2
    intro hEq
    have hl : (gcmEncrypt k n1 AAD p).length = (gcmEncrypt k n2 AAD p).length := by
      rw [gcmEncrypt_length, gcmEncrypt_length]
    exact hne (List.append_inj hEq hl).2

theorem encode_distinct_nonces_distinct_wires_witness :
    gcmEncrypt 0 (List.replicate 12 0) AAD [1] ++ List.replicate 12 0 ≠
      gcmEncrypt 0 (List.replicate 12 1) AAD [1] ++ List.replicate 12 1 :=
  encode_distinct_nonces_distinct_wires [0] [1] 0 (List.replicate 12 0)
    (List.replicate 12 1) _ _ (by decide) (by decide) (by decide) rfl rfl

/-- C10: whenever decode accepts an inbound wire message, only the data
field is replaced; source, sequence_number and topic are returned
unchanged from the raw input message. -/
theorem inbound_preserves_metadata (keys : KeyRing) (raw : RawMessage) (m : Message)
    (h : inbound_transform keys raw = .ok m) :
    m.source = raw.source ∧ m.sequence_number = raw.sequence_number ∧
      m.topic = raw.topic := by
  simp only [inbound_transform] at h
  split at h
  · exact Except.noConfusion h
  · split at h
    · injection h with h
      subst h
      exact ⟨rfl, rfl, rfl⟩
    · exact Except.noConfusion h

theorem inbound_preserves_metadata_witness :
    c10msg.source = c10raw.source ∧ c10msg.sequence_number = c10raw.sequence_number ∧
      c10msg.topic = c10raw.topic :=
  inbound_preserves_metadata [0] c10raw c10msg
    (by
      show inbound_transform [0]
          { data := gcmEncrypt 0 (List.replicate 12 0) AAD [9] ++ List.replicate 12 0,
            source := some 5, sequence_number := some 6, topic := 7 } = .ok c10msg
      rw [inbound_wire [0] _ _ (by decide)]
      simp [findDecrypt, gcmDecrypt_gcmEncrypt, c10msg])

/-- C7: the engine loop never emits a `Connected` event for a peer unless
an identify exchange confirmed that peer lists the expected application
protocol; a trace with a completed transport handshake but no successful
identify negotiation produces no `Connected` event. -/
theorem identify_gating (F T : Type) (tr : List (EngineInput F)) (p : Nat)
    (h : ∀ inp ∈ tr, confirmsIdentifyB F inp p = false) :
    NetworkEvent.admin (NetworkAdminEvent.connected p) ∉
      (engineRun F T EngineStatus.running tr).2 :=
  connected_not_mem_run F T EngineStatus.running tr p h

theorem identify_gating_witness :
    NetworkEvent.admin (NetworkAdminEvent.connected 3) ∉
      (engineRun Unit Unit EngineStatus.running c7trace).2 :=
  identify_gating Unit Unit c7trace 3 (by decide)

/-- C8 counterexample: after the application sends a single `Game` command
(and never `Admin(Quit)`), the engine hits `todo!()` and the loop
terminates by panic, so a later `send_to_network` call fails even though
no `Admin(Quit)` was ever processed — refuting "every call made before
the engine processes Admin(Quit) succeeds". -/
theorem send_fails_without_quit :
    (engineRun Unit Unit EngineStatus.running
        [.fromGame (.game ()) allCallsOk]).1 = .panicked ∧
    sendToNetwork Unit
        (engineRun Unit Unit EngineStatus.running [.fromGame (.game ()) allCallsOk]).1
        (.admin (.host "AB3-K9Q")) = .error (.admin (.host "AB3-K9Q")) := by
  exact ⟨rfl, rfl⟩

/-- C8 (amended): `send_to_network` fails exactly when the engine loop has
terminated. If the loop is still running when `Admin(Quit)` arrives, the
loop exits upon processing it, handles no further commands and emits no
further events, and every later send fails, while sends to the running
loop succeed. -/
theorem send_fails_iff_terminated (F T : Type) (tr1 tr2 : List (EngineInput F))
    (env : HostOutcome) (ev : GameEvent F)
    (h : (engineRun F T EngineStatus.running tr1).1 = .running) :
    (∀ st, sendToNetwork F st ev = .ok () ↔ st = .running) ∧
    engineRun F T EngineStatus.running
        (tr1 ++ EngineInput.fromGame (GameEvent.admin .quit) env :: tr2) =
      (EngineStatus.stopped, ((engineRun F T EngineStatus.running tr1).2 :
        List (NetworkEvent T))) ∧
    sendToNetwork F EngineStatus.stopped ev = .error ev := by
  refine ⟨?_, ?_, rfl⟩
  · intro st
    cases st <;> simp [sendToNetwork]
  · rw [engineRun_append, h]
    simp [engineRun, engineStep, handleCommand, engineRun_stopped]

theorem send_fails_iff_terminated_witness :
    (∀ st, sendToNetwork Unit st (.admin .quit) = .ok () ↔ st = .running) ∧
    engineRun Unit Unit EngineStatus.running
        (c8trace1 ++ EngineInput.fromGame (GameEvent.admin .quit) allCallsOk :: c8trace2) =
      (EngineStatus.stopped, ((engineRun Unit Unit EngineStatus.running c8trace1).2 :
        List (NetworkEvent Unit))) ∧
    sendToNetwork Unit EngineStatus.stopped (.admin .quit) = .error (.admin .quit) :=
  send_fails_iff_terminated Unit Unit c8trace1 c8trace2 allCallsOk (.admin .quit) (by decide)

/-- C9 counterexample: handling `Host{room_code}` when the bootstrap dial
fails hits `.expect("Dial should work")`, so the engine thread panics:
the subsequent `ConnectionClosed` event is never processed and no
`Disconnected` event is emitted — the loop does not continue. -/
theorem host_dial_failure_panics :
    engineRun Unit Unit EngineStatus.running
        [.fromGame (.admin (.host "AB3-K9Q")) dialFails,
          .fromSwarm (.connectionClosed 7)] =
      (EngineStatus.panicked, ([] : List (NetworkEvent Unit))) := rfl

/-- C9 (amended): once Running, failures surfaced as swarm session events
(incoming/outgoing connection errors, listener errors, …) are non-fatal —
the loop stays running and continues processing subsequent events — but a
failure of any of the listen, dial or provider-registration calls issued
while handling `Host{room_code}` panics the engine thread and terminates
the loop (as does a `Game` command, which hits `todo!()`). -/
theorem session_errors_nonfatal_host_expect_fatal (F T : Type) (rc : String)
    (env : HostOutcome) :
    (∀ ev : SwarmEvent,
        (engineStep F T EngineStatus.running (.fromSwarm ev)).1 = .running) ∧
    (∀ (ev : SwarmEvent) (tr : List (EngineInput F)),
        engineRun F T EngineStatus.running (EngineInput.fromSwarm ev :: tr) =
          ((engineRun F T EngineStatus.running tr).1,
            (handleSwarmEvent T ev : List (NetworkEvent T)) ++
              (engineRun F T EngineStatus.running tr).2)) ∧
    (env.allOk = true →
        (engineStep F T EngineStatus.running
          (.fromGame (.admin (.host rc)) env)).1 = .running) ∧
    (env.allOk = false →
        (engineStep F T EngineStatus.running
          (.fromGame (.admin (.host rc)) env)).1 = .panicked) := by
  refine ⟨fun ev => rfl, fun ev tr => by simp [engineRun, engineStep], ?_, ?_⟩
  · intro hok
    simp [engineStep, handleCommand, hok]
  · intro hfail
    simp [engineStep, handleCommand, hfail]

theorem session_errors_nonfatal_host_expect_fatal_witness :
    (engineStep Unit Unit EngineStatus.running
        (.fromSwarm SwarmEvent.listenerError)).1 = .running ∧
    (engineStep Unit Unit EngineStatus.running
        (.fromGame (.admin (.host "AB3-K9Q")) dialFails)).1 = .panicked :=
  ⟨(session_errors_nonfatal_host_expect_fatal Unit Unit "AB3-K9Q" dialFails).1
      SwarmEvent.listenerError,
    (session_errors_nonfatal_host_expect_fatal Unit Unit "AB3-K9Q"
      dialFails).2.2.2 (by decide)⟩

end BevyLibp2p
